import Mathlib

/-!
Verification development for the fsu-sciscinet-project1 data-aggregation
pipeline and its dashboard frontend.

The repository holds a Flask backend (data fetcher, preprocessing pipeline,
API server) and a React/D3 frontend.  The backend preprocessing code
(`preprocess.py`, `app.py`) is described by the design document; the frontend
components (`Dashboard.jsx`, `CitationNetwork.jsx`, `CollaborationNetwork`)
are embedded from their JSX sources.
-/

namespace SciSciNet

/-- Modelled from the spec: a raw upstream record before validation.  The
upstream source is duck-typed, so `id` and `year` may be absent (§9: dynamic
record shapes are validated at ingestion; §7: a record missing id or year is
dropped). -/
structure RawRecord where
  rid : Option String
  title : String
  year : Option Int
  citationCount : Nat
  authorIds : List String
  referenceIds : List String
deriving DecidableEq, Repr

/-- Modelled from the spec: (§3) a validated PaperRecord
{id, title, year, citationCount, authorIds, referenceIds}. -/
structure PaperRecord where
  pid : String
  title : String
  year : Int
  citationCount : Nat
  authorIds : List String
  referenceIds : List String
deriving DecidableEq, Repr

/-- Modelled from the spec: (§7) a malformed record (missing id or year) is
dropped; otherwise it is normalized into the strict PaperRecord schema. -/
def validate (r : RawRecord) : Option PaperRecord :=
  match r.rid, r.year with
  | some i, some y =>
      some ⟨i, r.title, y, r.citationCount, r.authorIds, r.referenceIds⟩
  | _, _ => none

/-- Modelled from the spec: (§2, §7) the Record Store loads the snapshot
wholesale, dropping malformed records. -/
def loadRecords (raws : List RawRecord) : List PaperRecord :=
  raws.filterMap validate

/-- Modelled from the spec: (§3) a CitationGraph node (id, year,
citationCount, title). -/
structure PaperNode where
  pid : String
  year : Int
  citationCount : Nat
  title : String
deriving DecidableEq, Repr

/-- The CitationGraph node derived from one record. -/
def paperNodeOf (r : PaperRecord) : PaperNode :=
  ⟨r.pid, r.year, r.citationCount, r.title⟩

/-- Modelled from the spec: (§4.1) include a node for every record. -/
def buildCitationNodes (records : List PaperRecord) : List PaperNode :=
  records.map paperNodeOf

/-- Modelled from the spec: (§4.1) include edge (A→B) iff B's id appears in
A's referenceIds and B is itself present in the record set; no self-edges. -/
def buildCitationEdges (records : List PaperRecord) : List (String × String) :=
  records.flatMap (fun a =>
    (a.referenceIds.filter (fun b =>
      b ≠ a.pid ∧ records.any (fun r => r.pid = b))).map (fun b => (a.pid, b)))

/-- Modelled from the spec: (§4.3) the distinct publication years present in
the data, in ascending order. -/
def timelineYears (records : List PaperRecord) : List Int :=
  ((records.map PaperRecord.year).dedup).insertionSort (· ≤ ·)

/-- Number of records whose year is `y`. -/
def countYear (records : List PaperRecord) (y : Int) : Nat :=
  (records.filter (fun r => r.year = y)).length

/-- Modelled from the spec: (§4.3) group records by year, count per group,
emit the ascending-by-year sequence; zero-count years are not synthesized. -/
def buildTimeline (records : List PaperRecord) : List (Int × Nat) :=
  (timelineYears records).map (fun y => (y, countYear records y))

/-- Modelled from the spec: (§4.2a) per author, the count of distinct papers
they appear on. -/
def authorPaperCount (records : List PaperRecord) (a : String) : Nat :=
  (records.filter (fun r => a ∈ r.authorIds)).length

/-- All author ids occurring in the record set. -/
def allAuthors (records : List PaperRecord) : List String :=
  (records.flatMap PaperRecord.authorIds).dedup

/-- Modelled from the spec: (§4.2b) keep only authors whose paper count meets
the threshold `T`. -/
def keptAuthors (records : List PaperRecord) (T : Nat) : List String :=
  (allAuthors records).filter (fun a => T ≤ authorPaperCount records a)

/-- Modelled from the spec: (§3) a CollaborationGraph node (id, paperCount). -/
structure AuthorNode where
  aid : String
  paperCount : Nat
deriving DecidableEq, Repr

/-- Modelled from the spec: (§4.2) output nodes are the kept authors with
their paper counts. -/
def buildCollabNodes (records : List PaperRecord) (T : Nat) : List AuthorNode :=
  (keptAuthors records T).map (fun a => ⟨a, authorPaperCount records a⟩)

/-- The kept co-authors appearing on one paper (deduplicated, since authorIds
is a set in the spec's data model). -/
def keptCoauthors (records : List PaperRecord) (T : Nat) (r : PaperRecord) :
    List String :=
  r.authorIds.dedup.filter (fun a => a ∈ keptAuthors records T)

/-- Lexical comparison of author ids: the order on their character
sequences. -/
def idLe (a b : String) : Prop := a.data ≤ b.data

/-- Strict lexical comparison of author ids. -/
def idLt (a b : String) : Prop := a.data < b.data

instance (a b : String) : Decidable (idLe a b) :=
  inferInstanceAs (Decidable (a.data ≤ b.data))

instance (a b : String) : Decidable (idLt a b) :=
  inferInstanceAs (Decidable (a.data < b.data))

/-- All unordered pairs of elements of a list, each emitted once as the
ordered pair (min, max) under the lexical order. -/
def orderedPairs : List String → List (String × String)
  | [] => []
  | a :: rest =>
      (rest.map (fun b => if idLe a b then (a, b) else (b, a))) ++
        orderedPairs rest

/-- Modelled from the spec: (§4.2c) the unordered pairs of kept co-authors on
one paper, keyed by the ordered pair (min id, max id). -/
def paperPairs (records : List PaperRecord) (T : Nat) (r : PaperRecord) :
    List (String × String) :=
  orderedPairs (keptCoauthors records T r)

/-- Modelled from the spec: (§4.2c) one increment of the shared edge weight
counter, keyed by an ordered author pair. -/
def bump (acc : List ((String × String) × Nat)) (p : String × String) :
    List ((String × String) × Nat) :=
  match acc with
  | [] => [(p, 1)]
  | e :: rest => if e.1 = p then (e.1, e.2 + 1) :: rest else e :: bump rest p

/-- Modelled from the spec: (§4.2c) for every paper, for every unordered pair
of kept co-authors on that paper, increment the shared edge weight counter. -/
def tallyEdges (records : List PaperRecord) (T : Nat) :
    List ((String × String) × Nat) :=
  records.foldl (fun acc r => (paperPairs records T r).foldl bump acc) []

/-- Modelled from the spec: (§4.2) output edges are all pairs accumulated by
the weight counter (each has weight ≥ 1). -/
def buildCollabEdges (records : List PaperRecord) (T : Nat) :
    List (String × String × Nat) :=
  (tallyEdges records T).map (fun e => (e.1.1, e.1.2, e.2))

/-- The weight an edge between `a` and `b` ought to have: the number of
papers shared by the two authors. -/
def sharedPaperCount (records : List PaperRecord) (a b : String) : Nat :=
  (records.filter (fun r => a ∈ r.authorIds ∧ b ∈ r.authorIds)).length

/-- Modelled from the spec: (§3, §4.4) the fixed bucket boundaries
0, 1–5, 6–10, 11–20, 21+, shared across all years. -/
def bucketLabels : List String := ["0", "1-5", "6-10", "11-20", "21+"]

/-- Modelled from the spec: (§4.4) the bucket a citation count falls into. -/
def bucketOf (c : Nat) : String :=
  if c = 0 then "0"
  else if c ≤ 5 then "1-5"
  else if c ≤ 10 then "6-10"
  else if c ≤ 20 then "11-20"
  else "21+"

/-- Modelled from the spec: (§4.4) for a given year, filter records to that
year, bucket each record's citationCount, count per bucket, and emit buckets
in boundary order, including empty buckets with count 0. -/
def histogramFor (records : List PaperRecord) (y : Int) : List (String × Nat) :=
  bucketLabels.map (fun lab =>
    (lab, ((records.filter (fun r => r.year = y)).filter
      (fun r => bucketOf r.citationCount = lab)).length))

/-- Modelled from the spec: (§4.4) the histogram is computed for every year
present in the TimelineSeries. -/
def buildHistogramTable (records : List PaperRecord) :
    List (Int × List (String × Nat)) :=
  (timelineYears records).map (fun y => (y, histogramFor records y))

/-- Modelled from the spec: (§4.5, §6) the histogram lookup contract — the
bucketed sequence for the requested year, or a NotFound condition (`none`)
when the year is absent from the timeline.  Returning `none` is an ordinary
outcome surfaced to the caller, not a pipeline failure and not a retry. -/
def lookupHistogram (records : List PaperRecord) (y : Int) :
    Option (List (String × Nat)) :=
  match (buildHistogramTable records).find? (fun e => e.1 = y) with
  | some e => some e.2
  | none => none

/-- The four derived structures of one pipeline run. -/
structure PipelineOutput where
  citationNodes : List PaperNode
  citationEdges : List (String × String)
  collabNodes : List AuthorNode
  collabEdges : List (String × String × Nat)
  timeline : List (Int × Nat)
  histogramTable : List (Int × List (String × Nat))
deriving DecidableEq, Repr

/-- Modelled from the spec: (§5) one single-threaded batch run — load the
records, then compute all four derived structures from the snapshot. -/
def runPipeline (raws : List RawRecord) (T : Nat) : PipelineOutput :=
  let records := loadRecords raws
  ⟨buildCitationNodes records, buildCitationEdges records,
   buildCollabNodes records T, buildCollabEdges records T,
   buildTimeline records, buildHistogramTable records⟩

/-- One element of the timeline array served to the frontend
(Dashboard.jsx: objects with `year` and `count` fields). -/
structure TimelineEntry where
  year : Int
  count : Nat
deriving DecidableEq, Repr

/-- One bar of a formatted histogram (Dashboard.jsx `fetchAllHistogramData`:
objects with `label` and `count` fields). -/
structure HistBar where
  label : String
  count : Nat
deriving DecidableEq, Repr

/-- The React state of the Dashboard component (Dashboard.jsx lines 18-21:
`timelineData`, `histogramData`, `selectedYear`, `loading`). -/
structure DashboardState where
  timelineData : List TimelineEntry
  histogramData : List (Int × List HistBar)
  selectedYear : Int
  loading : Bool
deriving DecidableEq, Repr

/-- The Dashboard's initial state (Dashboard.jsx lines 18-21:
`useState([])`, `useState({})`, `useState(2024)`, `useState(true)`). -/
def dashboardInit : DashboardState :=
  ⟨[], [], 2024, true⟩

/-- Lookup in the `histogramData` map, as `histogramData[selectedYear]`
reads it. -/
def histLookup (m : List (Int × List HistBar)) (y : Int) :
    Option (List HistBar) :=
  match m.find? (fun e => e.1 = y) with
  | some e => some e.2
  | none => none

/-- The timeline bar click handler (Dashboard.jsx lines 141-144): clicking a
bar for year `y` calls `setSelectedYear(y)` and nothing else. -/
def clickTimelineBar (s : DashboardState) (y : Int) : DashboardState :=
  { s with selectedYear := y }

/-- What the histogram view renders (Dashboard.jsx lines 179-181): the
precomputed data `histogramData[selectedYear]`. -/
def renderHistogram (s : DashboardState) : Option (List HistBar) :=
  histLookup s.histogramData s.selectedYear

/-- The timeline fetch resolution handler (Dashboard.jsx lines 57-73): store
the array; when it is non-empty, set `selectedYear` to the last element's
`year` and request histograms for every year of the array; finally clear
`loading`.  Returns the new state and the list of years whose histograms are
requested. -/
def onTimelineFetch (s : DashboardState) (data : List TimelineEntry) :
    DashboardState × List Int :=
  match data.getLast? with
  | some lastEntry =>
      ({ s with timelineData := data, selectedYear := lastEntry.year,
                loading := false },
       data.map TimelineEntry.year)
  | none =>
      ({ s with timelineData := data, loading := false }, [])

/-- A node object handed to the D3 force simulation: the payload fields
received from the API plus the position fields the simulation assigns
(`x`, `y`, `fx`, `fy`). -/
structure SimNode where
  payload : List (String × Int)
  px : Option Int
  py : Option Int
  fx : Option Int
  fy : Option Int
deriving DecidableEq, Repr

/-- A heap of JS objects; references are indices. -/
abbrev ObjHeap := List SimNode

/-- The spread copy `({ ...d })` of one node object
(CitationNetwork.jsx line 77, Dashboard.jsx line 361). -/
def spreadCopy (n : SimNode) : SimNode :=
  ⟨n.payload, n.px, n.py, n.fx, n.fy⟩

/-- The copy step of `createVisualization` in both network components
(CitationNetwork.jsx lines 77-78, Dashboard.jsx lines 361-362):
`networkData.nodes.map(d => ({ ...d }))` allocates a fresh copy of every
node object; the fresh references are appended to the heap.  Returns the
extended heap and the references of the copies. -/
def copyNodes (h : ObjHeap) (refs : List Nat) : ObjHeap × List Nat :=
  (h ++ refs.map (fun r => spreadCopy (h.getD r ⟨[], none, none, none, none⟩)),
   (List.range refs.length).map (fun i => h.length + i))

/-- One in-place field write the simulation or drag behaviour performs on a
node object (tick positions `d.x`, `d.y`; drag `fx`, `fy`). -/
def simAssign (h : ObjHeap) (r : Nat) (f : SimNode → SimNode) : ObjHeap :=
  match h.get? r with
  | some n => h.set r (f n)
  | none => h

/-- A whole run of the force simulation and drag interaction: a sequence of
in-place writes, each to some referenced node object. -/
def runSimulation (h : ObjHeap) (steps : List (Nat × (SimNode → SimNode))) :
    ObjHeap :=
  steps.foldl (fun acc s => simAssign acc s.1 s.2) h

/-- Occurrence count of one pair in a list of pairs. -/
def countPair (ps : List (String × String)) (q : String × String) : Nat :=
  (ps.filter (fun p => p = q)).length

/-- The value the weight counter holds for a key (0 when absent). -/
def lookupWeight : List ((String × String) × Nat) → (String × String) → Nat
  | [], _ => 0
  | e :: rest, q => if e.1 = q then e.2 else lookupWeight rest q

/-- The stream of all pair increments the Collaboration Graph Builder
performs, paper by paper. -/
def pairStream (records : List PaperRecord) (T : Nat) :
    List (String × String) :=
  records.flatMap (paperPairs records T)

/-- First record of the spec's worked example (§8, property 7). -/
def demoP1 : PaperRecord := ⟨"p1", "t1", 2020, 3, ["a1", "a2"], []⟩

/-- Second record of the spec's worked example (§8, property 7). -/
def demoP2 : PaperRecord := ⟨"p2", "t2", 2020, 0, ["a1", "a2"], ["p1"]⟩

/-- The record set of the spec's worked example. -/
def demoRecords : List PaperRecord := [demoP1, demoP2]

/-- The worked example as raw upstream records. -/
def demoRaws : List RawRecord :=
  [⟨some "p1", "t1", some 2020, 3, ["a1", "a2"], []⟩,
   ⟨some "p2", "t2", some 2020, 0, ["a1", "a2"], ["p1"]⟩]

section Theorems

/-- C1: The Citation Graph Builder includes a node for every record, and an
edge (A→B) exactly when B's id appears in A's referenceIds, B is present in
the record set, and the edge is not a self-edge; consequently both endpoints
of every edge are ids of nodes of the graph. -/
theorem citation_graph_correct (records : List PaperRecord) :
    (∀ r ∈ records, paperNodeOf r ∈ buildCitationNodes records) ∧
    (∀ a b, (a, b) ∈ buildCitationEdges records ↔
      ((∃ A ∈ records, A.pid = a ∧ b ∈ A.referenceIds) ∧
       (∃ B ∈ records, B.pid = b) ∧ b ≠ a)) ∧
    (∀ e ∈ buildCitationEdges records, e.1 ≠ e.2) ∧
    (∀ e ∈ buildCitationEdges records,
      e.1 ∈ (buildCitationNodes records).map PaperNode.pid ∧
      e.2 ∈ (buildCitationNodes records).map PaperNode.pid) := by
  have hmem : ∀ a b, (a, b) ∈ buildCitationEdges records ↔
      ((∃ A ∈ records, A.pid = a ∧ b ∈ A.referenceIds) ∧
       (∃ B ∈ records, B.pid = b) ∧ b ≠ a) := by
    intro a b
    simp only [buildCitationEdges, List.mem_flatMap, List.mem_map,
      List.mem_filter, decide_eq_true_eq, List.any_eq_true, Prod.mk.injEq]
    constructor
    · rintro ⟨A, hA, c, ⟨hc, hne, B, hB, hBpid⟩, rfl, rfl⟩
      exact ⟨⟨A, hA, rfl, hc⟩, ⟨B, hB, hBpid⟩, hne⟩
    · rintro ⟨⟨A, hA, rfl, hc⟩, ⟨B, hB, hBpid⟩, hne⟩
      exact ⟨A, hA, b, ⟨hc, hne, B, hB, hBpid⟩, rfl, rfl⟩
  refine ⟨?_, hmem, ?_, ?_⟩
  · intro r hr
    exact List.mem_map_of_mem paperNodeOf hr
  · rintro ⟨a, b⟩ he
    have h := (hmem a b).mp he
    exact fun hab => h.2.2 hab.symm
  · rintro ⟨a, b⟩ he
    obtain ⟨⟨A, hA, hApid, _⟩, ⟨B, hB, hBpid⟩, _⟩ := (hmem a b).mp he
    constructor
    · exact List.mem_map.mpr ⟨paperNodeOf A, List.mem_map_of_mem _ hA, hApid⟩
    · exact List.mem_map.mpr ⟨paperNodeOf B, List.mem_map_of_mem _ hB, hBpid⟩

/-- Witness for C1 at the spec's worked example: the edge (p2, p1) is present
because p2 references p1 within the set. -/
theorem citation_graph_correct_witness :
    ("p2", "p1") ∈ buildCitationEdges demoRecords :=
  ((citation_graph_correct demoRecords).2.1 "p2" "p1").mpr
    ⟨⟨demoP2, by decide, by decide, by decide⟩,
     ⟨demoP1, by decide, by decide⟩, by decide⟩

/-- C6: The pipeline is a pure function of the input snapshot, so two runs on
identical input yield structurally identical derived structures. -/
theorem pipeline_idempotent (raws1 raws2 : List RawRecord) (T : Nat)
    (h : raws1 = raws2) : runPipeline raws1 T = runPipeline raws2 T := by
  rw [h]

/-- Witness for C6: two runs on the worked example coincide. -/
theorem pipeline_idempotent_witness :
    runPipeline demoRaws 2 = runPipeline demoRaws 2 :=
  pipeline_idempotent demoRaws demoRaws 2 rfl

/-- Key-based search over a keyed map of a list finds the image of the first
matching key. -/
theorem find?_keyed_map {β : Type} (f : Int → β) (y : Int) :
    ∀ ys : List Int,
      (ys.map (fun x => (x, f x))).find? (fun e => e.1 = y) =
        (ys.find? (fun x => x = y)).map (fun x => (x, f x))
  | [] => rfl
  | x :: ys => by
    by_cases h : x = y
    · subst h
      rw [List.map_cons, List.find?_cons_of_pos, List.find?_cons_of_pos] <;>
        simp
    · rw [List.map_cons, List.find?_cons_of_neg, List.find?_cons_of_neg,
        find?_keyed_map f y ys] <;> simp [h]

/-- Searching a list for a fixed element finds that element when present. -/
theorem find?_eq_self_of_mem (y : Int) :
    ∀ ys : List Int, y ∈ ys → ys.find? (fun x => x = y) = some y
  | x :: ys, h => by
    by_cases hx : x = y
    · subst hx
      rw [List.find?_cons_of_pos]
      simp
    · rw [List.find?_cons_of_neg]
      · refine find?_eq_self_of_mem y ys ?_
        rcases List.mem_cons.mp h with h1 | h1
        · exact absurd h1.symm hx
        · exact h1
      · simp [hx]

/-- The years of the TimelineSeries are exactly `timelineYears`. -/
theorem timeline_map_fst (records : List PaperRecord) :
    (buildTimeline records).map Prod.fst = timelineYears records := by
  simp only [buildTimeline, List.map_map]
  exact List.map_id'' (fun y => rfl) _

/-- C7: the histogram lookup returns the bucketed sequence for the requested
year when that year occurs in the TimelineSeries, and the NotFound condition
(`none`) exactly when it does not; either way it is an ordinary return value,
not a pipeline failure. -/
theorem histogram_lookup_contract (records : List PaperRecord) (y : Int) :
    (y ∈ (buildTimeline records).map Prod.fst →
      lookupHistogram records y = some (histogramFor records y)) ∧
    (lookupHistogram records y = none ↔
      y ∉ (buildTimeline records).map Prod.fst) := by
  rw [timeline_map_fst]
  have hfind : (buildHistogramTable records).find? (fun e => e.1 = y) =
      ((timelineYears records).find? (fun x => x = y)).map
        (fun x => (x, histogramFor records x)) :=
    find?_keyed_map (histogramFor records) y (timelineYears records)
  constructor
  · intro hy
    rw [lookupHistogram, hfind, find?_eq_self_of_mem y _ hy]
    rfl
  · constructor
    · intro hnone hy
      rw [lookupHistogram, hfind, find?_eq_self_of_mem y _ hy] at hnone
      simp at hnone
    · intro hy
      have : (timelineYears records).find? (fun x => x = y) = none := by
        rw [List.find?_eq_none]
        intro x hx
        simp only [decide_eq_true_eq]
        rintro rfl
        exact hy hx
      rw [lookupHistogram, hfind, this]
      rfl

/-- Witness for C7 at the worked example: 2020 is found, 2019 is NotFound. -/
theorem histogram_lookup_contract_witness :
    lookupHistogram demoRecords 2020 = some (histogramFor demoRecords 2020) ∧
    lookupHistogram demoRecords 2019 = none :=
  ⟨(histogram_lookup_contract demoRecords 2020).1 (by decide),
   (histogram_lookup_contract demoRecords 2019).2.mpr (by decide)⟩

/-- C8: clicking a timeline bar for year `y` performs the single transition
that sets `selectedYear` to `y`; the timeline data, the precomputed histogram
map and the loading flag are untouched, and the histogram view then renders
from the precomputed map keyed by `y`. -/
theorem dashboard_selection_frame (s : DashboardState) (y : Int) :
    (clickTimelineBar s y).selectedYear = y ∧
    (clickTimelineBar s y).timelineData = s.timelineData ∧
    (clickTimelineBar s y).histogramData = s.histogramData ∧
    (clickTimelineBar s y).loading = s.loading ∧
    renderHistogram (clickTimelineBar s y) = histLookup s.histogramData y :=
  ⟨rfl, rfl, rfl, rfl, rfl⟩

/-- C9: when the timeline fetch resolves with a non-empty array, the selected
year becomes the `year` of the array's last element and histograms are
requested for exactly the array's years; on an empty array the selected year
is unchanged (so the initial default 2024 is kept) and no histogram request
is issued. -/
theorem timeline_fetch_behavior (s : DashboardState)
    (data : List TimelineEntry) :
    dashboardInit.selectedYear = 2024 ∧
    (∀ e, data.getLast? = some e →
      (onTimelineFetch s data).1.selectedYear = e.year ∧
      (onTimelineFetch s data).2 = data.map TimelineEntry.year) ∧
    (data = [] →
      (onTimelineFetch s data).1.selectedYear = s.selectedYear ∧
      (onTimelineFetch s data).2 = []) := by
  refine ⟨rfl, ?_, ?_⟩
  · intro e he
    rw [onTimelineFetch, he]
    exact ⟨rfl, rfl⟩
  · rintro rfl
    exact ⟨rfl, rfl⟩

/-- Witness for C9: fetching the one-entry timeline [(2020, 2)] selects 2020
and requests the histogram for 2020 only; fetching the empty timeline in the
initial state keeps the default year 2024. -/
theorem timeline_fetch_behavior_witness :
    ((onTimelineFetch dashboardInit [⟨2020, 2⟩]).1.selectedYear = 2020 ∧
     (onTimelineFetch dashboardInit [⟨2020, 2⟩]).2 = [2020]) ∧
    ((onTimelineFetch dashboardInit []).1.selectedYear = 2024 ∧
     (onTimelineFetch dashboardInit []).2 = []) :=
  ⟨(timeline_fetch_behavior dashboardInit [⟨2020, 2⟩]).2.1 ⟨2020, 2⟩ rfl,
   (timeline_fetch_behavior dashboardInit []).2.2 rfl⟩

/-- Summing a pointwise sum of two maps splits into two sums. -/
theorem sum_map_add_distrib {α : Type} (f g : α → Nat) :
    ∀ l : List α,
      (l.map (fun x => f x + g x)).sum = (l.map f).sum + (l.map g).sum
  | [] => rfl
  | x :: l => by
    simp only [List.map_cons, List.sum_cons, sum_map_add_distrib f g l]
    omega

/-- Summing the indicator of one key over a list counts its occurrences. -/
theorem sum_map_ite_eq_count {κ : Type} [DecidableEq κ] (k : κ) :
    ∀ ks : List κ, (ks.map (fun x => if k = x then 1 else 0)).sum = ks.count k
  | [] => rfl
  | x :: ks => by
    by_cases h : k = x
    · subst h
      simp [List.count_cons, sum_map_ite_eq_count k ks]
      omega
    · simp [List.count_cons, sum_map_ite_eq_count k ks, h, eq_comm]

/-- Partitioning a list by a key function: when the keys are distinct and
cover every element, the per-key filter lengths sum to the whole length. -/
theorem sum_length_filter_key {α κ : Type} [DecidableEq κ] (key : α → κ)
    (ks : List κ) (hnd : ks.Nodup) :
    ∀ l : List α, (∀ a ∈ l, key a ∈ ks) →
      (ks.map (fun k => (l.filter (fun a => key a = k)).length)).sum = l.length
  | [], _ => by simp
  | a :: l, hcov => by
    have hl : ∀ x ∈ l, key x ∈ ks := fun x hx =>
      hcov x (List.mem_cons_of_mem a hx)
    have ha : key a ∈ ks := hcov a (List.mem_cons_self a l)
    have hsplit : (ks.map (fun k =>
        ((a :: l).filter (fun x => key x = k)).length)) =
        ks.map (fun k => (if key a = k then 1 else 0) +
          (l.filter (fun x => key x = k)).length) := by
      refine List.map_congr_left ?_
      intro k _
      by_cases h : key a = k
      · simp [List.filter_cons, h]
        omega
      · simp [List.filter_cons, h]
    rw [hsplit, sum_map_add_distrib, sum_map_ite_eq_count,
      List.count_eq_one_of_mem hnd ha,
      sum_length_filter_key key ks hnd l hl, List.length_cons]
    omega

/-- The years of the timeline are distinct. -/
theorem timelineYears_nodup (records : List PaperRecord) :
    (timelineYears records).Nodup :=
  (List.perm_insertionSort (· ≤ ·) _).nodup_iff.mpr
    (List.nodup_dedup _)

/-- A year occurs in the timeline exactly when some record has it. -/
theorem mem_timelineYears (records : List PaperRecord) (y : Int) :
    y ∈ timelineYears records ↔ y ∈ records.map PaperRecord.year := by
  rw [timelineYears, List.mem_insertionSort, List.mem_dedup]

/-- C4: the TimelineSeries has exactly one entry per distinct year present
in the data (no zero-count year is synthesized), is strictly ascending by
year, and its counts sum to the number of valid (non-dropped) records. -/
theorem timeline_correct (raws : List RawRecord) :
    ((buildTimeline (loadRecords raws)).map Prod.fst).Nodup ∧
    ((buildTimeline (loadRecords raws)).map Prod.fst).Sorted (· < ·) ∧
    (∀ y, y ∈ (buildTimeline (loadRecords raws)).map Prod.fst ↔
      y ∈ (loadRecords raws).map PaperRecord.year) ∧
    (∀ p ∈ buildTimeline (loadRecords raws), 0 < p.2) ∧
    ((buildTimeline (loadRecords raws)).map Prod.snd).sum =
      (loadRecords raws).length := by
  rw [timeline_map_fst]
  refine ⟨timelineYears_nodup _, ?_, mem_timelineYears _, ?_, ?_⟩
  · exact List.Sorted.lt_of_le
      (List.sorted_insertionSort (· ≤ ·) _) (timelineYears_nodup _)
  · rintro ⟨y, c⟩ hp
    obtain ⟨y', hy', heq⟩ := List.mem_map.mp hp
    obtain ⟨rfl, rfl⟩ : y' = y ∧ countYear (loadRecords raws) y' = c := by
      simpa using heq
    obtain ⟨r, hr, hry⟩ := List.mem_map.mp
      ((mem_timelineYears (loadRecords raws) y').mp hy')
    simp only [countYear]
    have : r ∈ (loadRecords raws).filter (fun q => q.year = y') :=
      List.mem_filter.mpr ⟨hr, by simp [hry]⟩
    calc 0 < 1 := Nat.zero_lt_one
    _ ≤ ((loadRecords raws).filter (fun q => q.year = y')).length :=
      List.length_pos.mpr (fun hnil => by simp [hnil] at this)
  · rw [buildTimeline, List.map_map]
    exact sum_length_filter_key PaperRecord.year _
      (timelineYears_nodup _) _
      (fun r hr => (mem_timelineYears _ _).mpr (List.mem_map_of_mem _ hr))

/-- Witness for C4 at the worked example (as raw records): the timeline is
the single pair (2020, 2) and its counts sum to the two valid records. -/
theorem timeline_correct_witness :
    ((buildTimeline (loadRecords demoRaws)).map Prod.snd).sum =
      (loadRecords demoRaws).length ∧
    (2020 : Int) ∈ (buildTimeline (loadRecords demoRaws)).map Prod.fst :=
  ⟨(timeline_correct demoRaws).2.2.2.2,
   ((timeline_correct demoRaws).2.2.1 2020).mpr (by decide)⟩

/-- Every citation count falls into one of the fixed buckets. -/
theorem bucketOf_mem_labels (c : Nat) : bucketOf c ∈ bucketLabels := by
  rw [bucketOf, bucketLabels]
  repeat' split
  all_goals decide

/-- The fixed bucket labels are distinct. -/
theorem bucketLabels_nodup : bucketLabels.Nodup := by decide

/-- C5: for every entry (y, c) of the TimelineSeries the HistogramTable has
an entry for year y whose buckets appear in the fixed boundary order
(including empty buckets), and whose bucket counts sum to c. -/
theorem histogram_correct (records : List PaperRecord) :
    ∀ p ∈ buildTimeline records,
      (p.1, histogramFor records p.1) ∈ buildHistogramTable records ∧
      (histogramFor records p.1).map Prod.fst = bucketLabels ∧
      ((histogramFor records p.1).map Prod.snd).sum = p.2 := by
  rintro ⟨y, c⟩ hp
  obtain ⟨y', hy', heq⟩ := List.mem_map.mp hp
  obtain ⟨rfl, rfl⟩ : y' = y ∧ countYear records y' = c := by simpa using heq
  refine ⟨List.mem_map_of_mem _ hy', ?_, ?_⟩
  · rw [histogramFor, List.map_map]
    exact List.map_id'' (fun lab => rfl) _
  · rw [histogramFor, List.map_map]
    exact sum_length_filter_key
      (fun r : PaperRecord => bucketOf r.citationCount)
      bucketLabels bucketLabels_nodup _
      (fun r _ => bucketOf_mem_labels r.citationCount)

/-- Witness for C5 at the worked example: the 2020 histogram row is present,
in boundary order, and its counts sum to the year's paper count 2. -/
theorem histogram_correct_witness :
    ((2020 : Int), histogramFor demoRecords 2020) ∈
      buildHistogramTable demoRecords ∧
    (histogramFor demoRecords 2020).map Prod.fst = bucketLabels ∧
    ((histogramFor demoRecords 2020).map Prod.snd).sum = 2 :=
  histogram_correct demoRecords (2020, 2) (by decide)

/-- A weak lexical comparison together with distinctness is strict. -/
theorem idLe.lt_of_ne {a b : String} (h : idLe a b) (hne : a ≠ b) :
    idLt a b :=
  lt_of_le_of_ne h (fun hd => hne (String.toList_inj.mp hd))

/-- A strict lexical comparison is a weak one. -/
theorem idLt.le {a b : String} (h : idLt a b) : idLe a b :=
  le_of_lt h

/-- A failed weak lexical comparison flips strictly. -/
theorem idLt_of_not_le {a b : String} (h : ¬idLe a b) : idLt b a :=
  not_le.mp h

/-- A strict lexical comparison refutes the reverse weak one. -/
theorem not_idLe_of_idLt {a b : String} (h : idLt a b) : ¬idLe b a :=
  not_le.mpr h

/-- Strict lexical comparison is irreflexive. -/
theorem idLt_irrefl (a : String) : ¬idLt a a :=
  lt_irrefl a.data

/-- Membership in the ordered-pair list of a duplicate-free list: exactly the
pairs of two of its elements in strict lexical order. -/
theorem mem_orderedPairs (a b : String) :
    ∀ l : List String, l.Nodup →
      ((a, b) ∈ orderedPairs l ↔ a ∈ l ∧ b ∈ l ∧ idLt a b)
  | [], _ => by simp [orderedPairs]
  | x :: rest, hnd => by
    obtain ⟨hx, hrest⟩ := List.nodup_cons.mp hnd
    rw [orderedPairs, List.mem_append]
    constructor
    · rintro (hmem | hmem)
      · obtain ⟨c, hc, hceq⟩ := List.mem_map.mp hmem
        by_cases hle : idLe x c
        · rw [if_pos hle] at hceq
          have h1 : x = a := (Prod.ext_iff.mp hceq).1
          have h2 : c = b := (Prod.ext_iff.mp hceq).2
          refine ⟨?_, ?_, ?_⟩
          · rw [← h1]
            exact List.mem_cons_self x rest
          · rw [← h2]
            exact List.mem_cons_of_mem x hc
          · rw [← h1, ← h2]
            exact hle.lt_of_ne (fun h => hx (by rw [h]; exact hc))
        · rw [if_neg hle] at hceq
          have h1 : c = a := (Prod.ext_iff.mp hceq).1
          have h2 : x = b := (Prod.ext_iff.mp hceq).2
          refine ⟨?_, ?_, ?_⟩
          · rw [← h1]
            exact List.mem_cons_of_mem x hc
          · rw [← h2]
            exact List.mem_cons_self x rest
          · rw [← h1, ← h2]
            exact idLt_of_not_le hle
      · obtain ⟨ha, hb, hab⟩ := (mem_orderedPairs a b rest hrest).mp hmem
        exact ⟨List.mem_cons_of_mem x ha, List.mem_cons_of_mem x hb, hab⟩
    · rintro ⟨ha, hb, hab⟩
      rcases List.mem_cons.mp ha with rfl | ha'
      · have hb' : b ∈ rest := by
          rcases List.mem_cons.mp hb with rfl | h
          · exact absurd hab (idLt_irrefl _)
          · exact h
        exact Or.inl (List.mem_map.mpr ⟨b, hb', by rw [if_pos hab.le]⟩)
      · rcases List.mem_cons.mp hb with rfl | hb'
        · exact Or.inl (List.mem_map.mpr
            ⟨a, ha', by rw [if_neg (not_idLe_of_idLt hab)]⟩)
        · exact Or.inr ((mem_orderedPairs a b rest hrest).mpr ⟨ha', hb', hab⟩)

/-- The ordered-pair list of a duplicate-free list is duplicate-free. -/
theorem orderedPairs_nodup :
    ∀ l : List String, l.Nodup → (orderedPairs l).Nodup
  | [], _ => List.nodup_nil
  | x :: rest, hnd => by
    obtain ⟨hx, hrest⟩ := List.nodup_cons.mp hnd
    rw [orderedPairs]
    refine List.Nodup.append ?_ (orderedPairs_nodup rest hrest) ?_
    · refine List.Nodup.map_on ?_ hrest
      intro c hc d hd heq
      have hxc : x ≠ c := fun h => hx (h ▸ hc)
      by_cases h1 : idLe x c
      · by_cases h2 : idLe x d
        · rw [if_pos h1, if_pos h2] at heq
          exact (Prod.ext_iff.mp heq).2
        · rw [if_pos h1, if_neg h2] at heq
          have h3 : c = x := (Prod.ext_iff.mp heq).2
          exact absurd h3.symm hxc
      · by_cases h2 : idLe x d
        · rw [if_neg h1, if_pos h2] at heq
          have h3 : c = x := (Prod.ext_iff.mp heq).1
          exact absurd h3.symm hxc
        · rw [if_neg h1, if_neg h2] at heq
          exact (Prod.ext_iff.mp heq).1
    · intro p hp1 hp2
      obtain ⟨u, v⟩ := p
      obtain ⟨hu, hv, _⟩ := (mem_orderedPairs u v rest hrest).mp hp2
      obtain ⟨c, hc, hceq⟩ := List.mem_map.mp hp1
      by_cases hle : idLe x c
      · rw [if_pos hle] at hceq
        have h1 : x = u := (Prod.ext_iff.mp hceq).1
        exact hx (h1 ▸ hu)
      · rw [if_neg hle] at hceq
        have h2 : x = v := (Prod.ext_iff.mp hceq).2
        exact hx (h2 ▸ hv)

/-- A pair absent from a list has count 0. -/
theorem countPair_eq_zero (q : String × String) :
    ∀ ps : List (String × String), q ∉ ps → countPair ps q = 0
  | [], _ => rfl
  | p :: ps, hq => by
    have hpq : ¬p = q := fun h => hq (h ▸ List.mem_cons_self p ps)
    rw [countPair, List.filter_cons, if_neg (by simpa using hpq)]
    exact countPair_eq_zero q ps (fun h => hq (List.mem_cons_of_mem p h))

/-- A pair occurring in a duplicate-free list has count 1. -/
theorem countPair_eq_one (q : String × String) :
    ∀ ps : List (String × String), ps.Nodup → q ∈ ps → countPair ps q = 1
  | p :: ps, hnd, hq => by
    obtain ⟨hp, hps⟩ := List.nodup_cons.mp hnd
    rcases List.mem_cons.mp hq with rfl | hq'
    · rw [countPair, List.filter_cons, if_pos (by simp)]
      rw [List.length_cons]
      have : countPair ps q = 0 := countPair_eq_zero q ps hp
      rw [countPair] at this
      rw [this]
    · have hpq : ¬p = q := fun h => hp (h ▸ hq')
      rw [countPair, List.filter_cons, if_neg (by simpa using hpq)]
      exact countPair_eq_one q ps hps hq'

/-- Pair counts add over list concatenation. -/
theorem countPair_append (ps qs : List (String × String))
    (q : String × String) :
    countPair (ps ++ qs) q = countPair ps q + countPair qs q := by
  rw [countPair, countPair, countPair, List.filter_append, List.length_append]

/-- Occurrence count of a pair in the ordered-pair list of a duplicate-free
list. -/
theorem count_orderedPairs (a b : String) (l : List String) (hnd : l.Nodup) :
    countPair (orderedPairs l) (a, b) =
      if a ∈ l ∧ b ∈ l ∧ idLt a b then 1 else 0 := by
  by_cases h : a ∈ l ∧ b ∈ l ∧ idLt a b
  · rw [if_pos h]
    exact countPair_eq_one (a, b) _ (orderedPairs_nodup l hnd)
      ((mem_orderedPairs a b l hnd).mpr h)
  · rw [if_neg h]
    exact countPair_eq_zero (a, b) _
      (fun hc => h ((mem_orderedPairs a b l hnd).mp hc))

/-- One bump raises the bumped key's stored weight by one and leaves every
other key's weight unchanged. -/
theorem lookupWeight_bump (p q : String × String) :
    ∀ acc, lookupWeight (bump acc p) q =
      lookupWeight acc q + (if q = p then 1 else 0)
  | [] => by
    by_cases h : q = p
    · subst h
      simp [bump, lookupWeight]
    · simp [bump, lookupWeight, h, Ne.symm h]
  | e :: rest => by
    by_cases he : e.1 = p
    · by_cases hq : e.1 = q
      · rw [bump, if_pos he]
        rw [lookupWeight, if_pos hq, lookupWeight, if_pos hq,
          if_pos (hq ▸ he ▸ rfl : q = p)]
      · rw [bump, if_pos he]
        rw [lookupWeight, if_neg hq, lookupWeight, if_neg hq,
          if_neg (fun hc : q = p => hq (hc ▸ he)), Nat.add_zero]
    · by_cases hq : e.1 = q
      · rw [bump, if_neg he]
        rw [lookupWeight, if_pos hq, lookupWeight, if_pos hq,
          if_neg (fun hc : q = p => he (hq.trans hc)), Nat.add_zero]
      · rw [bump, if_neg he]
        rw [lookupWeight, if_neg hq, lookupWeight, if_neg hq,
          lookupWeight_bump p q rest]

/-- Keys after a bump: unchanged when the key was present, appended
otherwise. -/
theorem keys_bump (p : String × String) :
    ∀ acc, (bump acc p).map Prod.fst =
      if p ∈ acc.map Prod.fst then acc.map Prod.fst
      else acc.map Prod.fst ++ [p]
  | [] => by simp [bump]
  | e :: rest => by
    by_cases he : e.1 = p
    · rw [bump, if_pos he]
      rw [List.map_cons, List.map_cons, if_pos]
      rw [he]
      exact List.mem_cons_self p _
    · rw [bump, if_neg he]
      rw [List.map_cons, List.map_cons, keys_bump p rest]
      have hpe : p ∉ [e.1] ∨ True := Or.inr trivial
      by_cases hp : p ∈ rest.map Prod.fst
      · rw [if_pos hp, if_pos (List.mem_cons_of_mem e.1 hp)]
      · rw [if_neg hp, if_neg, List.cons_append]
        intro hc
        rcases List.mem_cons.mp hc with hc1 | hc2
        · exact he hc1.symm
        · exact hp hc2

/-- A bump never removes keys, and adds at most the bumped key. -/
theorem mem_keys_bump (p q : String × String) (acc) :
    q ∈ (bump acc p).map Prod.fst ↔ q ∈ acc.map Prod.fst ∨ q = p := by
  rw [keys_bump]
  by_cases hp : p ∈ acc.map Prod.fst
  · rw [if_pos hp]
    constructor
    · exact Or.inl
    · rintro (h | rfl)
      · exact h
      · exact hp
  · rw [if_neg hp, List.mem_append]
    simp

/-- Bumps preserve distinctness of the stored keys. -/
theorem keys_bump_nodup (p : String × String) (acc)
    (hnd : (acc.map Prod.fst).Nodup) : ((bump acc p).map Prod.fst).Nodup := by
  rw [keys_bump]
  by_cases hp : p ∈ acc.map Prod.fst
  · rw [if_pos hp]
    exact hnd
  · rw [if_neg hp]
    exact List.Nodup.append hnd (List.nodup_singleton p)
      (fun q hq hq2 => hp ((List.mem_singleton.mp hq2) ▸ hq))

/-- Pair count over a cons. -/
theorem countPair_cons (p : String × String) (ps : List (String × String))
    (q : String × String) :
    countPair (p :: ps) q = (if p = q then 1 else 0) + countPair ps q := by
  rw [countPair, List.filter_cons, countPair]
  by_cases h : p = q
  · rw [if_pos (by simpa using h), if_pos h, List.length_cons]
    omega
  · rw [if_neg (by simpa using h), if_neg h]
    omega

/-- Folding a stream of bumps accumulates, per key, the number of stream
occurrences of that key. -/
theorem lookupWeight_foldl (q : String × String) :
    ∀ (ps : List (String × String)) acc,
      lookupWeight (ps.foldl bump acc) q = lookupWeight acc q + countPair ps q
  | [], acc => by simp [countPair]
  | p :: ps, acc => by
    rw [List.foldl_cons, lookupWeight_foldl q ps (bump acc p),
      lookupWeight_bump p q acc, countPair_cons]
    by_cases h : p = q
    · rw [if_pos h, if_pos h.symm]
      omega
    · rw [if_neg h, if_neg (fun hc : q = p => h hc.symm)]
      omega

/-- Folding bumps preserves distinctness of the stored keys. -/
theorem keys_foldl_nodup :
    ∀ (ps : List (String × String)) acc,
      (acc.map Prod.fst).Nodup → ((ps.foldl bump acc).map Prod.fst).Nodup
  | [], _, hnd => hnd
  | p :: ps, acc, hnd =>
    keys_foldl_nodup ps (bump acc p) (keys_bump_nodup p acc hnd)

/-- The keys after folding a stream of bumps are the initial keys plus the
stream's elements. -/
theorem mem_keys_foldl (q : String × String) :
    ∀ (ps : List (String × String)) acc,
      q ∈ (ps.foldl bump acc).map Prod.fst ↔
        q ∈ acc.map Prod.fst ∨ q ∈ ps
  | [], acc => by simp
  | p :: ps, acc => by
    rw [List.foldl_cons, mem_keys_foldl q ps (bump acc p), mem_keys_bump,
      List.mem_cons]
    tauto

/-- A stored entry's value is what lookup returns for its key, when keys are
distinct. -/
theorem lookupWeight_entry :
    ∀ acc : List ((String × String) × Nat), (acc.map Prod.fst).Nodup →
      ∀ e ∈ acc, lookupWeight acc e.1 = e.2
  | a :: rest, hnd, e, he => by
    rw [List.map_cons] at hnd
    have hnd2 := List.nodup_cons.mp hnd
    rcases List.mem_cons.mp he with rfl | he'
    · rw [lookupWeight, if_pos rfl]
    · have hne : ¬a.1 = e.1 := fun h =>
        hnd2.1 (h ▸ List.mem_map_of_mem Prod.fst he')
      rw [lookupWeight, if_neg hne]
      exact lookupWeight_entry rest hnd2.2 e he'

/-- Folding paper-wise bump batches equals folding the concatenated bump
stream. -/
theorem foldl_bump_flatMap {α : Type} (f : α → List (String × String)) :
    ∀ (rs : List α) acc,
      rs.foldl (fun a r => (f r).foldl bump a) acc =
        (rs.flatMap f).foldl bump acc
  | [], _ => rfl
  | r :: rs, acc => by
    rw [List.foldl_cons, foldl_bump_flatMap f rs, List.flatMap_cons,
      List.foldl_append]

/-- The edge tally is the bump-fold of the whole pair stream. -/
theorem tallyEdges_eq (records : List PaperRecord) (T : Nat) :
    tallyEdges records T = (pairStream records T).foldl bump [] :=
  foldl_bump_flatMap (paperPairs records T) records []

/-- Membership in the kept co-author list of one paper. -/
theorem mem_keptCoauthors (records : List PaperRecord) (T : Nat)
    (r : PaperRecord) (a : String) :
    a ∈ keptCoauthors records T r ↔
      a ∈ r.authorIds ∧ a ∈ keptAuthors records T := by
  rw [keptCoauthors, List.mem_filter, List.mem_dedup]
  simp

/-- The kept co-author list of one paper is duplicate-free. -/
theorem keptCoauthors_nodup (records : List PaperRecord) (T : Nat)
    (r : PaperRecord) : (keptCoauthors records T r).Nodup :=
  List.Nodup.filter _ (List.nodup_dedup _)

/-- Pair counts over a concatenation of batches. -/
theorem countPair_flatMap {α : Type} (f : α → List (String × String))
    (q : String × String) :
    ∀ l : List α,
      countPair (l.flatMap f) q = (l.map (fun x => countPair (f x) q)).sum
  | [] => rfl
  | x :: l => by
    rw [List.flatMap_cons, countPair_append, List.map_cons, List.sum_cons,
      countPair_flatMap f q l]

/-- An indicator sum over a list is the length of the filtered list. -/
theorem sum_map_ite_eq_length_filter {α : Type} (P : α → Prop)
    [DecidablePred P] :
    ∀ l : List α, (l.map (fun x => if P x then 1 else 0)).sum =
      (l.filter (fun x => P x)).length
  | [] => rfl
  | x :: l => by
    rw [List.map_cons, List.sum_cons, List.filter_cons,
      sum_map_ite_eq_length_filter P l]
    by_cases h : P x
    · rw [if_pos h, if_pos (by simpa using h), List.length_cons]
      omega
    · rw [if_neg h, if_neg (by simpa using h)]
      omega

/-- Every pair in the bump stream joins two kept authors in strict lexical
order. -/
theorem mem_pairStream (records : List PaperRecord) (T : Nat)
    (p : String × String) (hp : p ∈ pairStream records T) :
    p.1 ∈ keptAuthors records T ∧ p.2 ∈ keptAuthors records T ∧
      idLt p.1 p.2 := by
  obtain ⟨r, _, hpp⟩ := List.mem_flatMap.mp hp
  obtain ⟨h1, h2, h3⟩ :=
    (mem_orderedPairs p.1 p.2 _ (keptCoauthors_nodup records T r)).mp hpp
  exact ⟨((mem_keptCoauthors records T r p.1).mp h1).2,
    ((mem_keptCoauthors records T r p.2).mp h2).2, h3⟩

/-- For a strictly ordered pair of kept authors, the bump stream mentions the
pair once per paper on which both appear — the shared paper count. -/
theorem countPair_pairStream (records : List PaperRecord) (T : Nat)
    (p : String × String) (hp1 : p.1 ∈ keptAuthors records T)
    (hp2 : p.2 ∈ keptAuthors records T) (hlt : idLt p.1 p.2) :
    countPair (pairStream records T) p = sharedPaperCount records p.1 p.2 := by
  rw [pairStream, countPair_flatMap]
  have hper : ∀ r : PaperRecord, countPair (paperPairs records T r) p =
      if p.1 ∈ r.authorIds ∧ p.2 ∈ r.authorIds then 1 else 0 := by
    intro r
    rw [paperPairs]
    have hco := count_orderedPairs p.1 p.2 _ (keptCoauthors_nodup records T r)
    rw [hco]
    by_cases h : p.1 ∈ r.authorIds ∧ p.2 ∈ r.authorIds
    · rw [if_pos, if_pos h]
      exact ⟨(mem_keptCoauthors records T r p.1).mpr ⟨h.1, hp1⟩,
        (mem_keptCoauthors records T r p.2).mpr ⟨h.2, hp2⟩, hlt⟩
    · rw [if_neg, if_neg h]
      intro hc
      exact h ⟨((mem_keptCoauthors records T r p.1).mp hc.1).1,
        ((mem_keptCoauthors records T r p.2).mp hc.2.1).1⟩
  rw [List.map_congr_left (fun r _ => hper r), sharedPaperCount]
  exact sum_map_ite_eq_length_filter
    (fun r : PaperRecord => p.1 ∈ r.authorIds ∧ p.2 ∈ r.authorIds) records

/-- The node ids of the collaboration graph are exactly the kept authors. -/
theorem collabNodes_ids (records : List PaperRecord) (T : Nat) :
    (buildCollabNodes records T).map AuthorNode.aid = keptAuthors records T := by
  rw [buildCollabNodes, List.map_map]
  exact List.map_id'' (fun a => rfl) _

/-- Every key stored by the edge tally occurs in the pair stream. -/
theorem tally_key_mem_stream (records : List PaperRecord) (T : Nat)
    (q : String × String) (hq : q ∈ (tallyEdges records T).map Prod.fst) :
    q ∈ pairStream records T := by
  rw [tallyEdges_eq] at hq
  rcases (mem_keys_foldl q (pairStream records T) []).mp hq with h | h
  · simp at h
  · exact h

/-- C2: every collaboration node's paperCount meets the threshold; the node
set is exactly the authors at or above the threshold, so authors below it are
excluded, and every edge endpoint is a kept node id, so their incident edges
are excluded too. -/
theorem collab_threshold_invariant (records : List PaperRecord) (T : Nat) :
    (∀ n ∈ buildCollabNodes records T, T ≤ n.paperCount) ∧
    (∀ a, a ∈ (buildCollabNodes records T).map AuthorNode.aid ↔
      a ∈ allAuthors records ∧ T ≤ authorPaperCount records a) ∧
    (∀ e ∈ buildCollabEdges records T,
      e.1 ∈ (buildCollabNodes records T).map AuthorNode.aid ∧
      e.2.1 ∈ (buildCollabNodes records T).map AuthorNode.aid) := by
  refine ⟨?_, ?_, ?_⟩
  · intro n hn
    obtain ⟨a, ha, rfl⟩ := List.mem_map.mp hn
    exact of_decide_eq_true (List.mem_filter.mp ha).2
  · intro a
    rw [collabNodes_ids, keptAuthors, List.mem_filter]
    simp
  · intro e he
    obtain ⟨en, hen, rfl⟩ := List.mem_map.mp he
    have hkey : en.1 ∈ pairStream records T :=
      tally_key_mem_stream records T en.1 (List.mem_map_of_mem Prod.fst hen)
    obtain ⟨h1, h2, _⟩ := mem_pairStream records T en.1 hkey
    rw [collabNodes_ids]
    exact ⟨h1, h2⟩

/-- Witness for C2 at the worked example with threshold 2: the node for
author a1 carries paperCount 2 ≥ 2. -/
theorem collab_threshold_invariant_witness :
    (2 : Nat) ≤ (AuthorNode.mk "a1" 2).paperCount :=
  (collab_threshold_invariant demoRecords 2).1 ⟨"a1", 2⟩ (by decide)

/-- C3: collaboration edges are keyed by strictly lexically ordered pairs
(min id, max id), each unordered pair occurs at most once, and each edge's
weight is exactly the number of papers its two authors share. -/
theorem collab_edges_correct (records : List PaperRecord) (T : Nat) :
    (∀ e ∈ buildCollabEdges records T, idLt e.1 e.2.1) ∧
    ((buildCollabEdges records T).map (fun e => (e.1, e.2.1))).Nodup ∧
    (∀ e ∈ buildCollabEdges records T,
      e.2.2 = sharedPaperCount records e.1 e.2.1) := by
  have hkeys : (buildCollabEdges records T).map (fun e => (e.1, e.2.1)) =
      (tallyEdges records T).map Prod.fst := by
    rw [buildCollabEdges, List.map_map]
    exact List.map_congr_left (fun en _ => rfl)
  have hnd : ((tallyEdges records T).map Prod.fst).Nodup := by
    rw [tallyEdges_eq]
    exact keys_foldl_nodup (pairStream records T) [] (by simp)
  refine ⟨?_, ?_, ?_⟩
  · intro e he
    obtain ⟨en, hen, rfl⟩ := List.mem_map.mp he
    exact (mem_pairStream records T en.1
      (tally_key_mem_stream records T en.1
        (List.mem_map_of_mem Prod.fst hen))).2.2
  · rw [hkeys]
    exact hnd
  · intro e he
    obtain ⟨en, hen, rfl⟩ := List.mem_map.mp he
    have hmem : en.1 ∈ pairStream records T :=
      tally_key_mem_stream records T en.1 (List.mem_map_of_mem Prod.fst hen)
    obtain ⟨h1, h2, h3⟩ := mem_pairStream records T en.1 hmem
    have hval : lookupWeight (tallyEdges records T) en.1 = en.2 :=
      lookupWeight_entry (tallyEdges records T) hnd en hen
    have hcnt : lookupWeight (tallyEdges records T) en.1 =
        countPair (pairStream records T) en.1 := by
      rw [tallyEdges_eq, lookupWeight_foldl, lookupWeight, Nat.zero_add]
    have := countPair_pairStream records T en.1 h1 h2 h3
    rw [← hval, hcnt, this]

/-- Witness for C3 at the worked example with threshold 2: the single edge
(a1, a2) carries weight 2, the exact number of shared papers. -/
theorem collab_edges_correct_witness :
    (("a1", "a2", 2) : String × String × Nat).2.2 =
      sharedPaperCount demoRecords "a1" "a2" :=
  (collab_edges_correct demoRecords 2).2.2 ("a1", "a2", 2) (by decide)

/-- Writes aimed at or beyond index `n` leave every cell below `n`
untouched. -/
theorem runSimulation_frame (n : Nat) :
    ∀ (steps : List (Nat × (SimNode → SimNode))) (h : ObjHeap),
      (∀ s ∈ steps, n ≤ s.1) → ∀ r, r < n →
        (runSimulation h steps)[r]? = h[r]?
  | [], _, _, _, _ => rfl
  | st :: steps, h, hsteps, r, hr => by
    have h1 : (simAssign h st.1 st.2)[r]? = h[r]? := by
      rw [simAssign]
      cases hg : h.get? st.1 with
      | none => rfl
      | some nd =>
        exact List.getElem?_set_ne (Nat.ne_of_gt (lt_of_lt_of_le hr
          (hsteps st (List.mem_cons_self st steps))))
    have h2 : runSimulation h (st :: steps) =
        runSimulation (simAssign h st.1 st.2) steps := rfl
    rw [h2, runSimulation_frame n steps (simAssign h st.1 st.2)
      (fun s hs => hsteps s (List.mem_cons_of_mem st hs)) r hr, h1]

/-- C10: `createVisualization` hands the D3 force simulation spread copies of
the API node objects: every copy reference is fresh (beyond the original
heap), and any sequence of simulation or drag writes confined to the copies
leaves every original node object — the network data held in React state —
exactly as it was. -/
theorem createVisualization_no_mutation (h : ObjHeap) (refs : List Nat)
    (steps : List (Nat × (SimNode → SimNode)))
    (hsteps : ∀ s ∈ steps, h.length ≤ s.1) :
    (∀ c ∈ (copyNodes h refs).2, h.length ≤ c) ∧
    ((copyNodes h refs).2.length = refs.length) ∧
    (∀ r, r < h.length →
      (runSimulation (copyNodes h refs).1 steps)[r]? = h[r]?) := by
  refine ⟨?_, ?_, ?_⟩
  · intro c hc
    obtain ⟨i, _, rfl⟩ := List.mem_map.mp hc
    exact Nat.le_add_right h.length i
  · rw [copyNodes, List.length_map, List.length_range]
  · intro r hr
    rw [runSimulation_frame h.length steps (copyNodes h refs).1 hsteps r hr,
      copyNodes, List.getElem?_append_left hr]

/-- Witness for C10: one original node, one copy; a simulation tick writing
positions to the copy leaves the original cell untouched. -/
theorem createVisualization_no_mutation_witness :
    (runSimulation
      (copyNodes [⟨[("citations", 3)], none, none, none, none⟩] [0]).1
      [(1, fun n => ⟨n.payload, some 10, some 20, n.fx, n.fy⟩)])[0]? =
      [(⟨[("citations", 3)], none, none, none, none⟩ : SimNode)][0]? :=
  (createVisualization_no_mutation
    [⟨[("citations", 3)], none, none, none, none⟩] [0]
    [(1, fun n => ⟨n.payload, some 10, some 20, n.fx, n.fy⟩)]
    (by decide)).2.2 0 (by decide)

end Theorems

end SciSciNet
